import Mathlib

/-!
Shallow embedding of the network-backed store implementation
(`src/nativelink-store/src/redis_store.rs`) of the turbo-cache repository,
together with proofs about the claims of its specification.

Conventions of the embedding:
* Machine integers (`usize`, `isize`) become `Nat` / `Int`, with the
  saturating additions and the `isize::try_from` bound check made explicit.
* The Redis backend state is an association list from keys to byte strings;
  the Redis commands STRLEN, EXISTS, GETRANGE, APPEND and RENAME are given
  their documented semantics on that state.
* Byte streams are lists of chunks (`List (List Nat)`); the zero-length
  chunk is the explicit end-of-stream marker.
* Fallible operations return `Except Error _`.
-/

namespace RedisModel

/-- Error kinds surfaced by this core (spec section 4.5). `Internal` and
`NotFound` are the ones this file needs. -/
inductive Code where
  | Internal
  | NotFound
  deriving DecidableEq, Repr

/-- An error value: a coarse kind plus a human-readable message, as in
`nativelink_error::Error` (`make_err!`). -/
structure Error where
  code : Code
  msg : String
  deriving DecidableEq, Repr

/-- Modelled from the spec: `Digest = { hash: opaque fixed-format string,
size_bytes: unsigned integer }` (spec section 3).  The concrete `DigestInfo`
type lives in `nativelink-util`, which is not part of the sources; following
the spec we model the hash as the packed bytes whose fixed-format string
rendering is lowercase hex (`hash_str`). -/
structure DigestInfo where
  packed_hash : List (Fin 256)
  size_bytes : Nat
  deriving DecidableEq, Repr

/-- Hex rendering of packed hash bytes, two lowercase hex digits per byte
(most significant digit first). -/
def hexChars : List (Fin 256) → List Char
  | [] => []
  | b :: bs => Nat.digitChar (b.val / 16) :: Nat.digitChar (b.val % 16) :: hexChars bs

/-- Modelled from the spec: `DigestInfo::hash_str` of `nativelink-util`
(not in the sources), the fixed-format string form of the hash. -/
def hash_str (d : DigestInfo) : String :=
  String.mk (hexChars d.packed_hash)

/-- Decimal rendering of a `Nat`, most significant digit first: the
embedding of Rust's `Display` for unsigned integers (used by the
`format!` in `digest_to_key`). -/
def natCharsAux (n : Nat) (acc : List Char) : List Char :=
  if n < 10 then Nat.digitChar n :: acc
  else natCharsAux (n / 10) (Nat.digitChar (n % 10) :: acc)
termination_by n
decreasing_by
  exact Nat.div_lt_self (by omega) (by omega)

def natChars (n : Nat) : List Char := natCharsAux n []

/-- `fn digest_to_key(digest: &DigestInfo) -> String` from the source:
`format!("{}-{}", digest.hash_str(), digest.size_bytes)`. -/
def digest_to_key (d : DigestInfo) : String :=
  hash_str d ++ "-" ++ String.mk (natChars d.size_bytes)

/-- The SHA-256 hash of the empty byte string: the hash value reserved for
empty content. -/
def emptyContentHash : List (Fin 256) :=
  [0xe3, 0xb0, 0xc4, 0x42, 0x98, 0xfc, 0x1c, 0x14,
   0x9a, 0xfb, 0xf4, 0xc8, 0x99, 0x6f, 0xb9, 0x24,
   0x27, 0xae, 0x41, 0xe4, 0x64, 0x9b, 0x93, 0x4c,
   0xa4, 0x95, 0x99, 0x1b, 0x78, 0x52, 0xb8, 0x55]

/-- Modelled from the spec: `is_zero_digest` of `cas_utils` (not in the
sources).  Spec section 3: "A digest with `size_bytes == 0` and the hash
value reserved for empty content is the zero digest". -/
def is_zero_digest (d : DigestInfo) : Bool :=
  d.size_bytes == 0 && d.packed_hash == emptyContentHash

/-! ## Redis backend state and command semantics

The backend is an association list from keys to byte strings (newest entry
first; `rset` shadows, `rdel` removes all entries of a key). -/

/-- Backend state: keys mapped to byte strings. -/
def RState := List (String × List Nat)

instance : DecidableEq RState := by
  unfold RState
  infer_instance

/-- Value stored at a key, if any. -/
def rlookup (st : RState) (k : String) : Option (List Nat) :=
  st.lookup k

/-- Store a value at a key (shadowing any previous entry). -/
def rset (st : RState) (k : String) (v : List Nat) : RState :=
  (k, v) :: st

/-- Remove every entry of a key. -/
def rdel (st : RState) (k : String) : RState :=
  st.filter (fun p => p.1 ≠ k)

/-- Redis APPEND: appends `data` to the value at `k`, creating the key as
an empty string first when it is absent. -/
def execAppend (st : RState) (k : String) (data : List Nat) : RState :=
  rset st k (((rlookup st k).getD []) ++ data)

/-- Executing the accumulated atomic pipeline of APPEND commands of one
`update` call, in receipt order. -/
def execAppendBatch (st : RState) (k : String) (chunks : List (List Nat)) : RState :=
  chunks.foldl (fun s c => execAppend s k c) st

/-- Redis RENAME: fails with an error when the source key is absent,
otherwise moves its value to the destination key. The error kind is
`Internal` via `from_redis_err` in the source. -/
def execRename (st : RState) (src dst : String) : Except Error RState :=
  match rlookup st src with
  | none => .error ⟨Code.Internal, "Redis Error: no such key"⟩
  | some v => .ok (rset (rdel st src) dst v)

/-- Redis STRLEN: length of the value at a key, `0` when absent. -/
def strlen (st : RState) (k : String) : Nat :=
  ((rlookup st k).getD []).length

/-- Redis GETRANGE on a byte string `b`, inclusive indices `start..en`.
Every call the store issues has `0 ≤ start` and `0 ≤ en`; for those the
result is the clamped substring ( empty when `start` is past the end or
`en < start`). -/
def getrange (b : List Nat) (start en : Int) : List Nat :=
  if start < 0 ∨ en < 0 then []
  else (b.drop start.toNat).take (en.toNat + 1 - start.toNat)

/-! ## Machine-integer helpers -/

/-- `isize::MAX` (64-bit). -/
def ISIZE_MAX : Int := 2 ^ 63 - 1

/-- `usize::saturating_add`. -/
def satAddUsize (a b : Nat) : Nat := min (a + b) (2 ^ 64 - 1)

/-- `isize::saturating_add` (both operands already in range). -/
def satAddIsize (a b : Int) : Int := max (-(2 ^ 63)) (min (a + b) ISIZE_MAX)

/-- `isize::try_from` on a `usize` value. -/
def isizeTryFrom (n : Nat) : Option Int :=
  if n ≤ 2 ^ 63 - 1 then some (n : Int) else none

/-! ## `Store::has_with_results` for `RedisStore`

The source builds one atomic pipeline of STRLEN commands (one per digest,
zero digests included), records the indexes holding zero digests, checks
the reply count against `results.len()`, writes `None`/`Some(size)` from
the replies, and finally overwrites every zero-digest index with
`Some(0)`.  A fast path handles the singleton zero-digest batch without
touching the backend.  We model `results` as a value passed in and
returned updated. -/

/-- The indexes of the zero digests of `digests`, counting from `k`:
the `zero_digest_indexes` vector of the source. -/
def zeroIndexes (k : Nat) : List DigestInfo → List Nat
  | [] => []
  | d :: ds =>
      if is_zero_digest d then k :: zeroIndexes (k + 1) ds
      else zeroIndexes (k + 1) ds

/-- Overwrite each listed index with `Some 0`: the final
`zero_digest_indexes` loop of the source. -/
def applyZeros (idxs : List Nat) (rs : List (Option Nat)) : List (Option Nat) :=
  idxs.foldl (fun acc j => acc.set j (some 0)) rs

/-- `digests.len() == 1 && is_zero_digest(&digests[0])`. -/
def hwrFastPath : List DigestInfo → Bool
  | [d] => is_zero_digest d
  | _ => false

/-- The part of `has_with_results` that consumes the backend reply
`sizes` (one claimed length per pipelined STRLEN): the reply-count check
(`error_if!`, kind `Internal` per the spec error taxonomy), the
`None`/`Some(size)` assignment, and the zero-digest overwrite. -/
def hwrCore (zeroIdxs : List Nat) (sizes : List Nat) (results : List (Option Nat)) :
    Except Error (List (Option Nat)) :=
  if sizes.length ≠ results.length then
    .error ⟨Code.Internal, "Mismatch in digest sizes and results length"⟩
  else
    .ok (applyZeros zeroIdxs
      (List.zipWith (fun sz _ => if sz = 0 then none else some sz) sizes results))

/-- `has_with_results` with the backend reply injected: used to express
behavior under a misbehaving backend that returns a wrong reply count. -/
def has_with_results_withSizes (digests : List DigestInfo) (sizes : List Nat)
    (results : List (Option Nat)) : Except Error (List (Option Nat)) :=
  if hwrFastPath digests then .ok (results.set 0 (some 0))
  else hwrCore (zeroIndexes 0 digests) sizes results

/-- `RedisStore::has_with_results` against an honest backend state: each
pipelined STRLEN reports the stored length (0 when the key is absent). -/
def has_with_results (st : RState) (digests : List DigestInfo)
    (results : List (Option Nat)) : Except Error (List (Option Nat)) :=
  has_with_results_withSizes digests
    (digests.map (fun d => strlen st (digest_to_key d))) results

/-! ## `Store::update` for `RedisStore`

A stream is a list of chunks; the zero-length chunk is the end-of-stream
marker.  The source's nested receive loop (`'outer: loop { ... }` with
`first_run` / `reader.is_empty()` / `yield_now`) consumes, sequentially,
every chunk up to the first end-of-stream marker, accumulating an APPEND
command per non-empty chunk in an atomic pipeline.  At the marker it
returns `Ok` at once when the digest is the zero digest; otherwise it
flushes the pipeline to the temporary key and RENAMEs the temporary key
onto the final key. A stream that ends without a marker makes
`reader.recv()` fail. -/

/-- The chunks before the first end-of-stream marker, `none` when the
stream has no marker (so that `recv` fails). -/
def splitAtEos : List (List Nat) → Option (List (List Nat))
  | [] => none
  | c :: rest => if c = [] then some [] else (splitAtEos rest).map (fun cs => c :: cs)

/-- `RedisStore::update`. `tempKey` is the freshly generated
`format!("temp-{}", ...)` name. The returned state is the backend state
after the call; an error leaves the backend unmodified apart from the
abandoned (never created, here) temporary key. -/
def update (tempKey : String) (digest : DigestInfo) (stream : List (List Nat))
    (st : RState) : Except Error RState :=
  match splitAtEos stream with
  | none => .error ⟨Code.Internal, "Failed to reach chunk in update in redis store"⟩
  | some chunks =>
      if is_zero_digest digest then .ok st
      else execRename (execAppendBatch st tempKey chunks) tempKey (digest_to_key digest)

/-! ## `Store::get_part_ref` for `RedisStore`

The writer transcript is the list of data chunks sent, paired with a flag
recording that the end-of-stream marker (`send_eof`) was sent.  The
backend connection is abstracted as the pair of the GETRANGE answer
function and the EXISTS answer, so the adversarial-backend claims can be
stated; the honest instantiation reads an `RState`. -/

/-- `CHUNK_SIZE` of the source: 64 KiB. -/
def CHUNK_SIZE : Int := 64 * 1024

/-- The read loop of `get_part_ref`: window `[current_start, current_end]`
requests against the backend, the empty-reply / requested-length /
short-window termination rules, and the over-delivery `error_if!`
(kind `Internal` per the spec error taxonomy). `acc` accumulates the
chunks already sent to the writer. -/
def getPartLoop (oracle : Int → Int → List Nat) (endPos : Int) (maxLength : Nat)
    (curStart : Int) (dataReceived : Nat) (acc : List (List Nat)) :
    Except Error (List (List Nat) × Bool) :=
  let curEnd : Int := min (satAddIsize curStart CHUNK_SIZE) endPos - 1
  let chunk := oracle curStart curEnd
  if hc : chunk = [] then .ok (acc, true)
  else
    -- `was_partial_data` in the source
    let wasShortData : Bool := decide ((chunk.length : Int) ≠ curEnd + 1 - curStart)
    if hb : dataReceived + chunk.length = maxLength ∨ wasShortData = true then
      .ok (acc ++ [chunk], true)
    else if he : dataReceived + chunk.length > maxLength then
      .error ⟨Code.Internal, "Data received exceeds requested length"⟩
    else
      getPartLoop oracle endPos maxLength (curStart + (chunk.length : Int))
        (dataReceived + chunk.length) (acc ++ [chunk])
termination_by maxLength - dataReceived
decreasing_by
  show maxLength - (dataReceived + chunk.length) < maxLength - dataReceived
  have hpos : 0 < chunk.length := List.length_pos.mpr hc
  have h1 : dataReceived + chunk.length ≠ maxLength := fun h => hb (Or.inl h)
  have h2 : ¬dataReceived + chunk.length > maxLength := he
  omega

/-- `RedisStore::get_part_ref` over an abstract connection:
`getrangeF start en` is the backend's GETRANGE reply for the digest's key
and `existsF` its EXISTS reply. -/
def get_part_ref_conn (getrangeF : Int → Int → List Nat) (existsF : Bool)
    (digest : DigestInfo) (offset : Nat) (length : Option Nat) :
    Except Error (List (List Nat) × Bool) :=
  if is_zero_digest digest then .ok ([], true)
  else if length = some 0 then
    if existsF then .ok ([], true)
    else .error ⟨Code.NotFound,
      "Data not found in Redis store for digest: " ++ digest_to_key digest⟩
  else
    -- max_length = length.unwrap_or(isize::MAX as usize)
    let maxLength := length.getD ISIZE_MAX.toNat
    -- end_position = isize::try_from(offset.saturating_add(max_length))?
    match isizeTryFrom (satAddUsize offset maxLength) with
    | none => .error ⟨Code.Internal,
        "Cannot convert offset to isize in redis store get_part_ref"⟩
    | some endPos => getPartLoop getrangeF endPos maxLength (offset : Int) 0 []

/-- `RedisStore::get_part_ref` against an honest backend state. -/
def get_part_ref (st : RState) (digest : DigestInfo) (offset : Nat)
    (length : Option Nat) : Except Error (List (List Nat) × Bool) :=
  get_part_ref_conn
    (getrange ((rlookup st (digest_to_key digest)).getD []))
    ((rlookup st (digest_to_key digest)).isSome)
    digest offset length

/-! ## Example values and proof helpers -/

/-- The zero digest: size 0 with the hash reserved for empty content. -/
def zeroDigest : DigestInfo := ⟨emptyContentHash, 0⟩

/-- A sample non-zero digest for a 3-byte blob. -/
def exDigest : DigestInfo := ⟨List.replicate 32 (1 : Fin 256), 3⟩

/-- A sample backend state holding the 3-byte blob of `exDigest`. -/
def exState : RState := [(digest_to_key exDigest, [10, 20, 30])]

/-- One step of the decimal evaluation map, used to invert `natChars`. -/
def decValStep (a : Nat) (c : Char) : Nat := 10 * a + (c.toNat - 48)

/-! ## Lemmas about the key encoding (for the injectivity claim) -/

theorem digitChar_ne_dash : ∀ k : Fin 16, Nat.digitChar k.val ≠ '-' := by
  decide

theorem digitChar_inj16 : ∀ a b : Fin 16,
    Nat.digitChar a.val = Nat.digitChar b.val → a = b := by
  decide

theorem digitChar_toNat : ∀ k : Fin 10, (Nat.digitChar k.val).toNat - 48 = k.val := by
  decide

theorem digitChar_toNat_ge : ∀ k : Fin 10, 48 ≤ (Nat.digitChar k.val).toNat := by
  decide

theorem digitChar10_ne_dash : ∀ k : Fin 10, Nat.digitChar k.val ≠ '-' := by
  decide

theorem natChars_def (n : Nat) : natChars n = natCharsAux n [] := rfl

/-- One unfolding step of `natCharsAux`, stated so rewrites can target one
occurrence. -/
theorem natCharsAux_unfold (n : Nat) (acc : List Char) :
    natCharsAux n acc =
      if n < 10 then Nat.digitChar n :: acc
      else natCharsAux (n / 10) (Nat.digitChar (n % 10) :: acc) := by
  rw [natCharsAux]

theorem hexChars_ne_dash (l : List (Fin 256)) (c : Char) (hc : c ∈ hexChars l) :
    c ≠ '-' := by
  induction l with
  | nil => simp [hexChars] at hc
  | cons b bs ih =>
      simp only [hexChars, List.mem_cons] at hc
      rcases hc with h | h | h
      · exact h ▸ digitChar_ne_dash ⟨b.val / 16, by omega⟩
      · exact h ▸ digitChar_ne_dash ⟨b.val % 16, by omega⟩
      · exact ih h

theorem hexChars_injective (l1 l2 : List (Fin 256)) (h : hexChars l1 = hexChars l2) :
    l1 = l2 := by
  induction l1 generalizing l2 with
  | nil => cases l2 with
      | nil => rfl
      | cons b bs => simp [hexChars] at h
  | cons a as ih =>
      cases l2 with
      | nil => simp [hexChars] at h
      | cons b bs =>
          simp only [hexChars, List.cons.injEq] at h
          obtain ⟨h1, h2, h3⟩ := h
          have ha : a.val < 256 := a.isLt
          have hb : b.val < 256 := b.isLt
          have e1 : (⟨a.val / 16, by omega⟩ : Fin 16) = ⟨b.val / 16, by omega⟩ :=
            digitChar_inj16 _ _ h1
          have e2 : (⟨a.val % 16, by omega⟩ : Fin 16) = ⟨b.val % 16, by omega⟩ :=
            digitChar_inj16 _ _ h2
          have hv1 : a.val / 16 = b.val / 16 := congrArg Fin.val e1
          have hv2 : a.val % 16 = b.val % 16 := congrArg Fin.val e2
          have : a = b := by
            apply Fin.ext
            omega
          rw [this, ih bs h3]

theorem natCharsAux_eq (n : Nat) : ∀ acc, natCharsAux n acc = natChars n ++ acc := by
  induction n using Nat.strong_induction_on with
  | _ n ih =>
      intro acc
      by_cases h : n < 10
      · rw [natCharsAux_unfold n acc, if_pos h, natChars_def n, natCharsAux_unfold n [], if_pos h]
        rfl
      · have hd : n / 10 < n := Nat.div_lt_self (by omega) (by omega)
        rw [natCharsAux_unfold n acc, if_neg h, ih _ hd,
          natChars_def n, natCharsAux_unfold n [], if_neg h, ih _ hd, List.append_assoc]
        rfl

theorem natChars_mem (n : Nat) (c : Char) (hc : c ∈ natChars n) :
    ∃ k : Fin 10, c = Nat.digitChar k.val := by
  induction n using Nat.strong_induction_on with
  | _ n ih =>
      by_cases h : n < 10
      · rw [natChars_def n, natCharsAux_unfold n [], if_pos h] at hc
        simp only [List.mem_singleton] at hc
        exact ⟨⟨n, h⟩, hc⟩
      · have hd : n / 10 < n := Nat.div_lt_self (by omega) (by omega)
        rw [natChars_def n, natCharsAux_unfold n [], if_neg h, natCharsAux_eq] at hc
        rcases List.mem_append.mp hc with h1 | h1
        · exact ih _ hd h1
        · simp only [List.mem_singleton] at h1
          exact ⟨⟨n % 10, by omega⟩, h1⟩

theorem natChars_ne_dash (n : Nat) (c : Char) (hc : c ∈ natChars n) : c ≠ '-' := by
  obtain ⟨k, rfl⟩ := natChars_mem n c hc
  exact digitChar10_ne_dash k

theorem foldl_decValStep_natChars (n : Nat) :
    ∀ a, List.foldl decValStep a (natChars n) = a * 10 ^ (natChars n).length + n := by
  induction n using Nat.strong_induction_on with
  | _ n ih =>
      intro a
      by_cases h : n < 10
      · rw [natChars_def n, natCharsAux_unfold n [], if_pos h]
        have hv := digitChar_toNat ⟨n, h⟩
        have h48 := digitChar_toNat_ge ⟨n, h⟩
        simp only [List.foldl_cons, List.foldl_nil, decValStep, List.length_cons,
          List.length_nil]
        simp only at hv h48
        omega
      · have hd : n / 10 < n := Nat.div_lt_self (by omega) (by omega)
        rw [natChars_def n, natCharsAux_unfold n [], if_neg h, natCharsAux_eq]
        rw [List.foldl_append, ih _ hd a]
        have hm := digitChar_toNat ⟨n % 10, by omega⟩
        have h48 := digitChar_toNat_ge ⟨n % 10, by omega⟩
        simp only [List.foldl_cons, List.foldl_nil, decValStep, List.length_append,
          List.length_cons, List.length_nil]
        simp only at hm h48
        have hpow : 10 ^ ((natChars (n / 10)).length + 1) =
            10 ^ (natChars (n / 10)).length * 10 := pow_succ 10 _
        rw [hpow, ← mul_assoc]
        have hdm := Nat.div_add_mod n 10
        omega

theorem natChars_injective (m n : Nat) (h : natChars m = natChars n) : m = n := by
  have hm := foldl_decValStep_natChars m 0
  have hn := foldl_decValStep_natChars n 0
  rw [h] at hm
  omega

theorem append_dash_inj (a1 : List Char) :
    ∀ a2 b1 b2 : List Char, (∀ c ∈ a1, c ≠ '-') → (∀ c ∈ a2, c ≠ '-') →
      a1 ++ '-' :: b1 = a2 ++ '-' :: b2 → a1 = a2 ∧ b1 = b2 := by
  induction a1 with
  | nil =>
      intro a2 b1 b2 _ h2 heq
      cases a2 with
      | nil => simpa using heq
      | cons c t =>
          simp only [List.nil_append, List.cons_append, List.cons.injEq] at heq
          exact absurd heq.1.symm (h2 c (List.mem_cons_self c t))
  | cons c1 t1 ih =>
      intro a2 b1 b2 h1 h2 heq
      cases a2 with
      | nil =>
          simp only [List.cons_append, List.nil_append, List.cons.injEq] at heq
          exact absurd heq.1 (h1 c1 (List.mem_cons_self c1 t1))
      | cons c2 t2 =>
          simp only [List.cons_append, List.cons.injEq] at heq
          obtain ⟨hc, ht⟩ := heq
          obtain ⟨hta, htb⟩ := ih t2 b1 b2
            (fun c hc => h1 c (List.mem_cons_of_mem _ hc))
            (fun c hc => h2 c (List.mem_cons_of_mem _ hc)) ht
          exact ⟨by rw [hc, hta], htb⟩

theorem digest_to_key_data (d : DigestInfo) :
    (digest_to_key d).data = hexChars d.packed_hash ++ '-' :: natChars d.size_bytes := by
  show ((hash_str d ++ "-") ++ String.mk (natChars d.size_bytes)).data = _
  rw [String.data_append, String.data_append]
  simp [hash_str]

/-! ## Lemmas about the existence/size batch check -/

theorem hwrFastPath_true {ds : List DigestInfo} (h : hwrFastPath ds = true) :
    ∃ d0, ds = [d0] ∧ is_zero_digest d0 = true := by
  match ds with
  | [] => simp [hwrFastPath] at h
  | [d0] => exact ⟨d0, rfl, h⟩
  | _ :: _ :: _ => simp [hwrFastPath] at h

theorem mem_zeroIndexes (ds : List DigestInfo) :
    ∀ k i d, ds[i]? = some d → is_zero_digest d = true → (k + i) ∈ zeroIndexes k ds := by
  induction ds with
  | nil => intro k i d hget; simp at hget
  | cons e es ih =>
      intro k i d hget hz
      cases i with
      | zero =>
          simp only [List.getElem?_cons_zero, Option.some.injEq] at hget
          subst hget
          simp only [zeroIndexes, hz, if_true]
          exact List.mem_cons_self _ _
      | succ j =>
          simp only [List.getElem?_cons_succ] at hget
          have hmem := ih (k + 1) j d hget hz
          have harith : k + (j + 1) = (k + 1) + j := by omega
          rw [harith]
          simp only [zeroIndexes]
          by_cases hze : is_zero_digest e
          · simp only [hze, if_true]
            exact List.mem_cons_of_mem _ hmem
          · simp only [hze, if_false]
            exact hmem

theorem applyZeros_getElem?_notMem (idxs : List Nat) :
    ∀ rs i, i ∉ idxs → (applyZeros idxs rs)[i]? = rs[i]? := by
  induction idxs with
  | nil => intro rs i _; rfl
  | cons j t ih =>
      intro rs i hni
      have hij : j ≠ i := fun h => hni (h ▸ List.mem_cons_self j t)
      have hnt : i ∉ t := fun h => hni (List.mem_cons_of_mem j h)
      show (applyZeros t (rs.set j (some 0)))[i]? = rs[i]?
      rw [ih _ i hnt, List.getElem?_set_ne hij]

theorem applyZeros_getElem?_mem (idxs : List Nat) :
    ∀ rs i, i ∈ idxs → i < rs.length → (applyZeros idxs rs)[i]? = some (some 0) := by
  induction idxs with
  | nil => intro rs i hmem _; simp at hmem
  | cons j t ih =>
      intro rs i hmem hlen
      show (applyZeros t (rs.set j (some 0)))[i]? = some (some 0)
      by_cases hit : i ∈ t
      · exact ih _ i hit (by simpa using hlen)
      · have hij : i = j := by
          rcases List.mem_cons.mp hmem with h | h
          · exact h
          · exact absurd h hit
        subst hij
        rw [applyZeros_getElem?_notMem t _ i hit, List.getElem?_set_self hlen]

/-! ## Claim theorems -/

/-- C8: for every offset, every optional length (including `some 0`) and
every backend (quantified as the GETRANGE and EXISTS answer functions, so
no backend command can influence the result), `get_part_ref` on the zero
digest immediately sends the end-of-stream marker, delivers no data bytes
and returns success. -/
theorem C8_zero_digest_get_part (getrangeF : Int → Int → List Nat) (existsF : Bool)
    (d : DigestInfo) (offset : Nat) (length : Option Nat)
    (hz : is_zero_digest d = true) :
    get_part_ref_conn getrangeF existsF d offset length = .ok ([], true) := by
  simp [get_part_ref_conn, hz]

theorem C8_witness :
    get_part_ref_conn (fun _ _ => [1, 2]) false zeroDigest 5 (some 0) = .ok ([], true) :=
  C8_zero_digest_get_part (fun _ _ => [1, 2]) false zeroDigest 5 (some 0) (by decide)

/-- C5: for every non-zero digest, `get_part_ref` with `length = some 0`
checks existence on the backend: a `NotFound` error when the digest's key
is absent, otherwise the end-of-stream marker with no data chunk and
success. -/
theorem C5_zero_length_existence_check (st : RState) (d : DigestInfo) (offset : Nat)
    (hz : is_zero_digest d = false) :
    (rlookup st (digest_to_key d) = none →
      get_part_ref st d offset (some 0) =
        .error ⟨Code.NotFound,
          "Data not found in Redis store for digest: " ++ digest_to_key d⟩) ∧
    (∀ v, rlookup st (digest_to_key d) = some v →
      get_part_ref st d offset (some 0) = .ok ([], true)) := by
  constructor
  · intro hnone
    simp [get_part_ref, get_part_ref_conn, hz, hnone]
  · intro v hsome
    simp [get_part_ref, get_part_ref_conn, hz, hsome]

theorem C5_witness :
    (rlookup [] (digest_to_key exDigest) = none →
      get_part_ref [] exDigest 0 (some 0) =
        .error ⟨Code.NotFound,
          "Data not found in Redis store for digest: " ++ digest_to_key exDigest⟩) ∧
    (∀ v, rlookup [] (digest_to_key exDigest) = some v →
      get_part_ref [] exDigest 0 (some 0) = .ok ([], true)) :=
  C5_zero_length_existence_check [] exDigest 0 (by decide)

/-- C7: for every input stream that delivers the end-of-stream marker,
`update` with the zero digest returns success with the backend state
completely unchanged. -/
theorem C7_zero_digest_update_noop (tempKey : String) (d : DigestInfo)
    (stream : List (List Nat)) (st : RState)
    (hz : is_zero_digest d = true) (he : (splitAtEos stream).isSome = true) :
    update tempKey d stream st = .ok st := by
  obtain ⟨chunks, hchunks⟩ := Option.isSome_iff_exists.mp he
  simp [update, hchunks, hz]

theorem C7_witness : update "temp-a" zeroDigest [[1], []] [] = .ok [] :=
  C7_zero_digest_update_noop "temp-a" zeroDigest [[1], []] [] (by decide) (by decide)

/-- C10: for every non-zero digest, when `update` receives the
end-of-stream marker as the very first chunk it issues no APPEND, and the
concluding RENAME of the never-created (fresh) temporary key surfaces the
backend's error, so the digest never becomes readable as an empty blob. -/
theorem C10_empty_stream_rename_error (tempKey : String) (d : DigestInfo)
    (stream : List (List Nat)) (st : RState)
    (hz : is_zero_digest d = false) (hh : stream.head? = some [])
    (hfresh : rlookup st tempKey = none) :
    update tempKey d stream st = .error ⟨Code.Internal, "Redis Error: no such key"⟩ := by
  cases stream with
  | nil => simp at hh
  | cons c rest =>
      have hc : c = [] := by simpa using hh
      subst hc
      have hsp : splitAtEos ([] :: rest) = some [] := by simp [splitAtEos]
      have hbatch : execAppendBatch st tempKey [] = st := rfl
      simp [update, hsp, hz, hbatch, execRename, hfresh]

theorem C10_witness :
    update "temp-b" exDigest [[]] [] = .error ⟨Code.Internal, "Redis Error: no such key"⟩ :=
  C10_empty_stream_rename_error "temp-b" exDigest [[]] [] (by decide) (by decide) (by decide)

/-- C9: the digest-to-remote-key mapping is a function of the digest's
hash and size (determinism is function application), and it is injective:
two digests with the same remote key are equal. -/
theorem C9_digest_to_key_injective (d1 d2 : DigestInfo)
    (h : digest_to_key d1 = digest_to_key d2) : d1 = d2 := by
  have hd := congrArg String.data h
  rw [digest_to_key_data, digest_to_key_data] at hd
  obtain ⟨hh, hs⟩ := append_dash_inj _ _ _ _
    (fun c hc => hexChars_ne_dash d1.packed_hash c hc)
    (fun c hc => hexChars_ne_dash d2.packed_hash c hc) hd
  have h1 := hexChars_injective _ _ hh
  have h2 := natChars_injective _ _ hs
  cases d1
  cases d2
  simp_all

theorem C9_witness : exDigest = exDigest :=
  C9_digest_to_key_injective exDigest exDigest rfl

/-- C3: for every digest sequence (zero digests at any positions) and
every backend state, `has_with_results` succeeds and reports `Some 0` at
each zero-digest position, regardless of what the backend reports for
that key. -/
theorem C3_zero_digest_reported_zero (st : RState) (digests : List DigestInfo)
    (results : List (Option Nat)) (i : Nat) (d : DigestInfo)
    (hlen : results.length = digests.length)
    (hget : digests[i]? = some d) (hz : is_zero_digest d = true) :
    ∃ r, has_with_results st digests results = .ok r ∧ r[i]? = some (some 0) := by
  have hilen : i < digests.length := by
    by_contra hge
    rw [List.getElem?_eq_none (by omega)] at hget
    exact Option.noConfusion hget
  by_cases hf : hwrFastPath digests = true
  · obtain ⟨d0, hds, hz0⟩ := hwrFastPath_true hf
    subst hds
    have hi0 : i = 0 := by
      simp only [List.length_singleton] at hilen
      omega
    subst hi0
    refine ⟨results.set 0 (some 0), ?_, ?_⟩
    · simp [has_with_results, has_with_results_withSizes, hf]
    · have hr0 : 0 < results.length := by
        simp only [List.length_singleton] at hlen
        omega
      exact List.getElem?_set_self hr0
  · have hf' : hwrFastPath digests = false := by
      cases hb : hwrFastPath digests
      · rfl
      · exact absurd hb hf
    have hsl : (digests.map (fun d => strlen st (digest_to_key d))).length
        = digests.length := List.length_map _ _
    have hne : ¬((digests.map (fun d => strlen st (digest_to_key d))).length
        ≠ results.length) := by omega
    refine ⟨applyZeros (zeroIndexes 0 digests)
      (List.zipWith (fun sz _ => if sz = 0 then none else some sz)
        (digests.map (fun d => strlen st (digest_to_key d))) results), ?_, ?_⟩
    · simp [has_with_results, has_with_results_withSizes, hf', hwrCore, hne]
      omega
    · have hmem : i ∈ zeroIndexes 0 digests := by
        have := mem_zeroIndexes digests 0 i d hget hz
        simpa using this
      have hzlen : i < (List.zipWith (fun sz _ => if sz = 0 then none else some sz)
          (digests.map (fun d => strlen st (digest_to_key d))) results).length := by
        rw [List.length_zipWith]
        omega
      exact applyZeros_getElem?_mem _ _ i hmem hzlen

theorem C3_witness :
    ∃ r, has_with_results [] [exDigest, zeroDigest] [none, none] = .ok r ∧
      r[1]? = some (some 0) :=
  C3_zero_digest_reported_zero [] [exDigest, zeroDigest] [none, none] 1 zeroDigest
    (by decide) (by decide) (by decide)

/-- C6: if the batched backend existence query returns a reply count
different from the number of input digests (a misbehaving backend,
injected here as the `sizes` list), `has_with_results` fails with an
`Internal` error and writes no truncated or misaligned results. -/
theorem C6_reply_count_mismatch_internal (digests : List DigestInfo) (sizes : List Nat)
    (results : List (Option Nat))
    (hlen : results.length = digests.length)
    (hmis : sizes.length ≠ digests.length)
    (hnf : hwrFastPath digests = false) :
    has_with_results_withSizes digests sizes results =
      .error ⟨Code.Internal, "Mismatch in digest sizes and results length"⟩ := by
  have hne : sizes.length ≠ results.length := by omega
  simp [has_with_results_withSizes, hnf, hwrCore, hne]

theorem C6_witness :
    has_with_results_withSizes [exDigest, exDigest] [1] [none, none] =
      .error ⟨Code.Internal, "Mismatch in digest sizes and results length"⟩ :=
  C6_reply_count_mismatch_internal [exDigest, exDigest] [1] [none, none]
    (by decide) (by decide) (by decide)

/-- C1 (code bug evidence): on a stored 3-byte blob, a ranged read with
`offset = 1` and `length = none` (read to end) does not deliver the
remaining bytes: `max_length` defaults to `isize::MAX`, so
`offset.saturating_add(max_length)` exceeds `isize::MAX` for every
positive offset and the `isize::try_from` conversion fails, independent
of the backend state. -/
theorem C1_read_to_end_with_offset_errors (st : RState) :
    get_part_ref st exDigest 1 none =
      .error ⟨Code.Internal,
        "Cannot convert offset to isize in redis store get_part_ref"⟩ := rfl

/-- C4 (code bug evidence): with a length cap of 1, a backend that
misbehaves and answers the one-byte GETRANGE window with two bytes makes
`get_part_ref` forward the oversized chunk, send the end-of-stream marker
and return success: 2 > 1 bytes are delivered with no `Internal` error,
because an oversized reply is also a short-window mismatch
(`was_partial_data`) and that branch breaks before the over-delivery
`error_if!` is reached. -/
theorem C4_overdelivery_silently_succeeds :
    get_part_ref_conn (fun _ _ => [5, 6]) true exDigest 0 (some 1) =
      .ok ([[5, 6]], true) := by
  rw [get_part_ref_conn]
  simp only [show is_zero_digest exDigest = false from rfl]
  norm_num
  show getPartLoop (fun _ _ => [5, 6]) 1 1 0 0 [] = Except.ok ([[5, 6]], true)
  rw [getPartLoop.eq_def]
  norm_num [satAddIsize, CHUNK_SIZE, ISIZE_MAX]
  simp

/-- C2 counterexample: for the zero digest with a data chunk appended
before the end-of-stream marker, the claim's "otherwise" branch demands
the flush-and-rename path, which would commit the byte under the final
key; the code instead returns success immediately with the backend
unchanged, so the two disagree at this input. -/
theorem C2_counterexample :
    update "temp-t" zeroDigest [[1], []] [] = .ok [] ∧
    execRename (execAppendBatch [] "temp-t" [[1]]) "temp-t" (digest_to_key zeroDigest) =
      .ok [(digest_to_key zeroDigest, [1])] ∧
    ([(digest_to_key zeroDigest, [1])] : RState) ≠ [] := by
  refine ⟨rfl, rfl, ?_⟩
  intro h
  exact List.noConfusion h

/-- C2 (amended): on receiving the end-of-stream marker, `update` returns
success immediately without writing anything whenever the digest is the
zero digest (whether or not data chunks were appended); otherwise it
flushes the accumulated append commands to the temporary key as one
atomic batch and atomically renames the temporary key to the final key,
returning success only through that rename. -/
theorem C2_update_commit_behavior (tempKey : String) (d : DigestInfo)
    (stream chunks : List (List Nat)) (st : RState)
    (hsp : splitAtEos stream = some chunks) :
    (is_zero_digest d = true → update tempKey d stream st = .ok st) ∧
    (is_zero_digest d = false →
      update tempKey d stream st =
        execRename (execAppendBatch st tempKey chunks) tempKey (digest_to_key d)) := by
  constructor
  · intro hz
    simp [update, hsp, hz]
  · intro hz
    simp [update, hsp, hz]

theorem C2_witness :
    (is_zero_digest exDigest = true →
      update "temp-c" exDigest [[1], []] [] = .ok []) ∧
    (is_zero_digest exDigest = false →
      update "temp-c" exDigest [[1], []] [] =
        execRename (execAppendBatch [] "temp-c" [[1]]) "temp-c" (digest_to_key exDigest)) :=
  C2_update_commit_behavior "temp-c" exDigest [[1], []] [[1]] [] (by decide)

end RedisModel
